import Mathlib

/-!
# Counter widget controller (`src/js/challenge.js`)

A shallow embedding of the event handlers of `challenge.js`.

The script keeps four variables (`counter`, `isPaused`, `intervalId`, `likes`) and
reads and writes a handful of DOM nodes.  The state below holds the four variables, the
part of the browser the script talks to (the table of active interval timers) and the
DOM properties the handlers touch.  Every handler is a function on that state.

Conventions.
* `counter` and the like counts are JavaScript numbers that only ever hold integers; they
  are embedded as `Int` and `Nat` (exact below `2^53`; the specification leaves overflow
  out of scope).  A template literal `${n}` of such a number is its decimal rendering,
  `toString n`.
* `likes` is a plain object indexed by the counter value; it is embedded as a function
  from the index to an optional count (`none` is `undefined`).
* The children of `.likes` are embedded as the list of their `id` and `textContent`, the
  children of `#list` as the list of their `textContent`.  No other element of the page
  has an id of the form `like-<number>`: the comment paragraphs get no id, and the page
  markup, which is not among the sources, is taken to declare none.
-/

namespace Challenge

/-! ## State -/

/-- An `li` child of the `.likes` list: its `id` and its `textContent`. -/
structure LikeItem where
  id : String
  textContent : String
deriving DecidableEq, Repr

/-- Script variables, browser timers and the DOM properties used by the handlers. -/
structure State where
  /-- The variable `counter`. -/
  counter : Int
  /-- The variable `isPaused`. -/
  isPaused : Bool
  /-- The variable `intervalId` (`none` is `null`). -/
  intervalId : Option Nat
  /-- The object `likes`. -/
  likes : Int → Option Nat
  /-- Handles of the interval timers that are currently active in the browser. -/
  timers : List Nat
  /-- The handle the next `setInterval` call returns. -/
  nextHandle : Nat
  /-- The property `counterDisplay.textContent`. -/
  counterText : String
  /-- The property `pauseBtn.textContent`. -/
  pauseText : String
  /-- The property `plusBtn.disabled`. -/
  plusDisabled : Bool
  /-- The property `minusBtn.disabled`. -/
  minusDisabled : Bool
  /-- The property `heartBtn.disabled`. -/
  heartDisabled : Bool
  /-- The property `commentInput.disabled`. -/
  inputDisabled : Bool
  /-- The property `disabled` of `commentForm.querySelector('#submit')`. -/
  submitDisabled : Bool
  /-- The children of `likesList` in document order. -/
  likesList : List LikeItem
  /-- The property `commentInput.value`. -/
  commentInput : String
  /-- The `textContent` of the children of `commentDisplay` in document order. -/
  commentDisplay : List String

/-! ## Browser primitives -/

/-- The call `setInterval(callback, 1000)`: registers a periodic timer and returns its
handle.  Every timer of this script carries the same callback, so a handle is all that is
kept; handles are tokens of which only the identity matters. -/
def setInterval (s : State) : Nat × State :=
  (s.nextHandle, { s with timers := s.timers ++ [s.nextHandle], nextHandle := s.nextHandle + 1 })

/-- The call `clearInterval(id)`: the timer with that handle, if any, is no longer
active. -/
def clearInterval (id : Option Nat) (s : State) : State :=
  match id with
  | none => s
  | some h => { s with timers := s.timers.filter (fun t => t != h) }

/-- ECMAScript `WhiteSpace` and `LineTerminator` code points, the ones `trim` strips. -/
def isWhiteSpace (c : Char) : Bool :=
  let n := c.toNat
  n == 0x09 || n == 0x0A || n == 0x0B || n == 0x0C || n == 0x0D || n == 0x20 ||
  n == 0xA0 || n == 0x1680 || (0x2000 ≤ n && n ≤ 0x200A) || n == 0x2028 || n == 0x2029 ||
  n == 0x202F || n == 0x205F || n == 0x3000 || n == 0xFEFF

/-- The method `String.prototype.trim`: strips white space from both ends. -/
def trim (s : String) : String :=
  String.mk ((s.data.dropWhile isWhiteSpace).rdropWhile isWhiteSpace)

/-- Truthiness of `likes[k]`: `undefined` and `0` are falsy. -/
def truthy : Option Nat → Bool
  | none => false
  | some n => n != 0

/-- The template literal for the element id, with `like-` in front of the number. -/
def likeId (n : Int) : String := "like-" ++ toString n

/-- The assignment `document.getElementById(id).textContent = text` over the children of `likesList`:
the first element with that id gets the text; `none` when no element has the id (the
lookup returns `null` and the assignment throws a `TypeError`). -/
def setTextById (id text : String) : List LikeItem → Option (List LikeItem)
  | [] => none
  | x :: xs =>
    if x.id = id then some ({ x with textContent := text } :: xs)
    else (setTextById id text xs).map (fun r => x :: r)

/-! ## The script -/

/-- The function `updateCounterDisplay()`. -/
def updateCounterDisplay (s : State) : State :=
  { s with counterText := toString s.counter }

/-- The callback handed to `setInterval` in `startCounter`. -/
def timerCallback (s : State) : State :=
  if !s.isPaused then updateCounterDisplay { s with counter := s.counter + 1 } else s

/-- The function `startCounter()`. -/
def startCounter (s : State) : Nat × State := setInterval s

/-- Click handler of `plusBtn`. -/
def plusClick (s : State) : State :=
  updateCounterDisplay { s with counter := s.counter + 1 }

/-- Click handler of `minusBtn`. -/
def minusClick (s : State) : State :=
  updateCounterDisplay { s with counter := s.counter - 1 }

/-- Click handler of `heartBtn`.  `.error s'` is an uncaught `TypeError`, with `s'` the
state the handler leaves behind. -/
def heartClick (s : State) : Except State State :=
  let currentNumber := s.counter
  if truthy (s.likes currentNumber) then
    let count := (s.likes currentNumber).getD 0 + 1
    let s1 := { s with likes := fun k => if k = currentNumber then some count else s.likes k }
    match setTextById (likeId currentNumber)
        (toString currentNumber ++ " has been liked " ++ toString count ++ " times")
        s1.likesList with
    | none => .error s1
    | some l => .ok { s1 with likesList := l }
  else
    .ok { s with
      likes := fun k => if k = currentNumber then some 1 else s.likes k
      likesList := s.likesList ++
        [⟨likeId currentNumber, toString currentNumber ++ " has been liked 1 time"⟩] }

/-- The function `toggleButtons(disable)`. -/
def toggleButtons (disable : Bool) (s : State) : State :=
  { s with
    plusDisabled := disable
    minusDisabled := disable
    heartDisabled := disable
    inputDisabled := disable
    submitDisabled := disable }

/-- Click handler of `pauseBtn`. -/
def pauseClick (s : State) : State :=
  let s1 := { s with isPaused := !s.isPaused }
  if s1.isPaused then
    let s2 := clearInterval s1.intervalId s1
    toggleButtons true { s2 with pauseText := "resume" }
  else
    let r := startCounter s1
    toggleButtons false { r.2 with intervalId := some r.1, pauseText := "pause" }

/-- Submit handler of `commentForm`. -/
def submitHandler (s : State) : State :=
  let commentText := trim s.commentInput
  if commentText ≠ "" then
    { s with commentDisplay := s.commentDisplay ++ [commentText], commentInput := "" }
  else s

/-! ## Events and runs -/

/-- What can happen to the page: a timer fires, a control is activated, or the user
edits the comment field. -/
inductive Event where
  | tick
  | plus
  | minus
  | heart
  | pause
  | typeInput (text : String)
  | submit
deriving DecidableEq, Repr

/-- The state a `heartBtn` click leaves behind, whether the handler threw or not. -/
def afterHeart (s : State) : State :=
  match heartClick s with
  | .ok s' => s'
  | .error s' => s'

/-- One event.  A tick needs an active timer; the handlers run whenever they are
invoked (a superset of what a browser dispatches, which drops clicks on disabled
controls). -/
def step (s : State) : Event → Option State
  | .tick => if s.timers.isEmpty then none else some (timerCallback s)
  | .plus => some (plusClick s)
  | .minus => some (minusClick s)
  | .heart => some (afterHeart s)
  | .pause => some (pauseClick s)
  | .typeInput text => some { s with commentInput := text }
  | .submit => some (submitHandler s)

/-- A finite sequence of events, from left to right. -/
def exec (s : State) : List Event → Option State
  | [] => some s
  | e :: es => (step s e).bind (fun s' => exec s' es)

/-- Modelled from the spec: the page markup (`index.html`) is not among the sources.
The page starts with the counter showing `0`, the toggle labelled `pause`, all controls
enabled, an empty comment field and empty likes and comment lists; the script has run
its top level, so the variables hold their initial values and `startCounter()` has
registered the first timer. -/
def init : State :=
  let s0 : State :=
    { counter := 0, isPaused := false, intervalId := none, likes := fun _ => none
      timers := [], nextHandle := 1
      counterText := "0", pauseText := "pause"
      plusDisabled := false, minusDisabled := false, heartDisabled := false
      inputDisabled := false, submitDisabled := false
      likesList := [], commentInput := "", commentDisplay := [] }
  let r := startCounter s0
  { r.2 with intervalId := some r.1 }

/-- States the page can be in. -/
def Reachable (s : State) : Prop := ∃ evs, exec init evs = some s

/-! ## Vocabulary of the statements -/

/-- While running, the only active timer is the one stored in `intervalId`; while
paused, none is active. -/
def TimerInv (s : State) : Prop :=
  (s.isPaused = false → ∃ h, s.intervalId = some h ∧ s.timers = [h]) ∧
  (s.isPaused = true → s.timers = [])

/-- The event is a click on `plusBtn` or on `minusBtn`. -/
def IsCounterClick (e : Event) : Prop := e = Event.plus ∨ e = Event.minus

instance (e : Event) : Decidable (IsCounterClick e) := by
  unfold IsCounterClick; infer_instance

/-- The text an entry of the likes list carries for value `v` liked `n` times. -/
def likeText (v : Int) (n : Nat) : String :=
  if n = 1 then toString v ++ " has been liked 1 time"
  else toString v ++ " has been liked " ++ toString n ++ " times"

/-- The values of a list in the order of their first occurrence. -/
def firstSeen : List Int → List Int
  | [] => []
  | v :: vs => v :: (firstSeen vs).filter (fun w => decide (w ≠ v))

/-- The counter values liked along a run, one per click on `heartBtn`, oldest first. -/
def likedValues : State → List Event → List Int
  | _, [] => []
  | s, e :: es =>
    (if e = Event.heart then [s.counter] else []) ++
      (match step s e with
       | some s' => likedValues s' es
       | none => [])

/-- The entry of the likes list for `v` after the likes `H`. -/
def likeItem (H : List Int) (v : Int) : LikeItem :=
  ⟨likeId v, likeText v (H.count v)⟩

/-- The tally counts the likes `H`, and the likes list shows them in first-liked order. -/
def LikesInv (s : State) (H : List Int) : Prop :=
  (∀ v, s.likes v = if H.count v = 0 then none else some (H.count v)) ∧
  s.likesList = (firstSeen H).map (likeItem H)

/-- Reads a list of decimal digit characters back as a number. -/
def decodeDigits (cs : List Char) : Nat :=
  cs.foldl (fun a c => a * 10 + (c.toNat - 48)) 0

/-! ## Decimal rendering is injective -/

theorem digitChar_toNat (d : Nat) (h : d < 10) : (Nat.digitChar d).toNat = 48 + d := by
  interval_cases d <;> rfl

theorem digitChar_ne_minus (d : Nat) (h : d < 10) : Nat.digitChar d ≠ '-' := by
  interval_cases d <;> decide

theorem toDigitsCore_append (f : Nat) : ∀ (n : Nat) (ds : List Char),
    Nat.toDigitsCore 10 f n ds = Nat.toDigitsCore 10 f n [] ++ ds := by
  induction f with
  | zero => intro n ds; simp [Nat.toDigitsCore]
  | succ f ih =>
    intro n ds
    simp only [Nat.toDigitsCore]
    split
    · simp
    · rw [ih (n / 10) (Nat.digitChar (n % 10) :: ds), ih (n / 10) [Nat.digitChar (n % 10)]]
      simp

theorem decodeDigits_append_singleton (cs : List Char) (c : Char) :
    decodeDigits (cs ++ [c]) = decodeDigits cs * 10 + (c.toNat - 48) := by
  simp [decodeDigits, List.foldl_append]

theorem decodeDigits_toDigitsCore (f : Nat) : ∀ n : Nat, n < f →
    decodeDigits (Nat.toDigitsCore 10 f n []) = n := by
  induction f with
  | zero => intro n h; omega
  | succ f ih =>
    intro n h
    have hd : (Nat.digitChar (n % 10)).toNat - 48 = n % 10 := by
      rw [digitChar_toNat _ (Nat.mod_lt _ (by decide))]; omega
    simp only [Nat.toDigitsCore]
    split
    · rename_i h0
      simp only [decodeDigits, List.foldl_cons, List.foldl_nil, hd]
      omega
    · rename_i h0
      rw [toDigitsCore_append, decodeDigits_append_singleton, hd, ih (n / 10) (by omega)]
      omega

theorem toDigitsCore_no_minus (f : Nat) : ∀ (n : Nat) (ds : List Char),
    '-' ∈ Nat.toDigitsCore 10 f n ds → '-' ∈ ds := by
  induction f with
  | zero => intro n ds h; simpa [Nat.toDigitsCore] using h
  | succ f ih =>
    intro n ds h
    have hne := digitChar_ne_minus (n % 10) (Nat.mod_lt _ (by decide))
    simp only [Nat.toDigitsCore] at h
    split at h
    · rcases List.mem_cons.1 h with h1 | h1
      · exact absurd h1.symm hne
      · exact h1
    · rcases List.mem_cons.1 (ih _ _ h) with h1 | h1
      · exact absurd h1.symm hne
      · exact h1

theorem natRepr_data (n : Nat) : (toString n).data = Nat.toDigitsCore 10 (n + 1) n [] := rfl

theorem natToString_injective : Function.Injective (fun n : Nat => toString n) := by
  intro a b h
  have h1 : decodeDigits (toString a).data = decodeDigits (toString b).data :=
    congrArg (fun s : String => decodeDigits s.data) h
  rwa [natRepr_data, natRepr_data, decodeDigits_toDigitsCore _ _ (Nat.lt_succ_self a),
    decodeDigits_toDigitsCore _ _ (Nat.lt_succ_self b)] at h1

theorem natToString_no_minus (n : Nat) : '-' ∉ (toString n).data := by
  intro h
  rw [natRepr_data] at h
  simpa using toDigitsCore_no_minus _ _ _ h

theorem intToString_ofNat (n : Nat) : toString (Int.ofNat n) = toString n := rfl

theorem intToString_negSucc (n : Nat) :
    toString (Int.negSucc n) = "-" ++ toString (n + 1) := rfl

theorem intToString_injective : Function.Injective (fun n : Int => toString n) := by
  intro a b h
  simp only at h
  cases a with
  | ofNat a =>
    cases b with
    | ofNat b =>
      rw [intToString_ofNat, intToString_ofNat] at h
      exact congrArg Int.ofNat (natToString_injective h)
    | negSucc b =>
      exfalso
      rw [intToString_ofNat, intToString_negSucc] at h
      apply natToString_no_minus a
      rw [h]
      simp
  | negSucc a =>
    cases b with
    | ofNat b =>
      exfalso
      rw [intToString_ofNat, intToString_negSucc] at h
      apply natToString_no_minus b
      rw [← h]
      simp
    | negSucc b =>
      rw [intToString_negSucc, intToString_negSucc] at h
      have h2 : toString (a + 1) = toString (b + 1) := by
        have := congrArg String.data h
        simp only [String.data_append, List.append_cancel_left_eq] at this
        exact String.ext this
      have := natToString_injective h2
      simp only [Nat.add_right_cancel_iff] at this
      rw [this]

theorem likeId_injective : Function.Injective likeId := by
  intro a b h
  have := congrArg String.data h
  simp only [likeId, String.data_append, List.append_cancel_left_eq] at this
  exact intToString_injective (String.ext this)

/-! ## Runs and reachability -/

theorem exec_invariant (P : State → Prop)
    (hstep : ∀ s e s', P s → step s e = some s' → P s') :
    ∀ (evs : List Event) (s s' : State), P s → exec s evs = some s' → P s' := by
  intro evs
  induction evs with
  | nil =>
    intro s s' hs h
    simp only [exec, Option.some.injEq] at h
    exact h ▸ hs
  | cons e es ih =>
    intro s s' hs h
    simp only [exec] at h
    cases hse : step s e with
    | none => simp [hse] at h
    | some s1 =>
      rw [hse] at h
      exact ih s1 s' (hstep s e s1 hs hse) h

theorem reachable_induction (P : State → Prop) (h0 : P init)
    (hstep : ∀ s e s', P s → step s e = some s' → P s') :
    ∀ s, Reachable s → P s := by
  rintro s ⟨evs, h⟩
  exact exec_invariant P hstep evs init s h0 h

/-! ## Timers -/

theorem timerInv_init : TimerInv init := by
  constructor
  · intro _; exact ⟨1, rfl, rfl⟩
  · intro h; exact absurd h (by decide)

theorem heartClick_frame (s : State) :
    (afterHeart s).counter = s.counter ∧ (afterHeart s).isPaused = s.isPaused ∧
    (afterHeart s).intervalId = s.intervalId ∧ (afterHeart s).timers = s.timers ∧
    (afterHeart s).nextHandle = s.nextHandle ∧
    (afterHeart s).counterText = s.counterText ∧
    (afterHeart s).pauseText = s.pauseText ∧
    (afterHeart s).commentInput = s.commentInput ∧
    (afterHeart s).commentDisplay = s.commentDisplay := by
  unfold afterHeart heartClick
  simp only
  split_ifs with h
  · cases setTextById (likeId s.counter) _ s.likesList <;> simp
  · simp

theorem clearInterval_eq (id : Option Nat) (s : State) :
    clearInterval id s =
      { s with timers := s.timers.filter (fun t => decide (some t ≠ id)) } := by
  cases id with
  | none => simp [clearInterval]
  | some h =>
    have hf : (fun t : Nat => decide (some t ≠ some h)) = fun t => t != h := by
      funext t
      by_cases hth : t = h <;> simp [hth]
    simp only [clearInterval, hf]

theorem pauseClick_running (s : State) (hp : s.isPaused = false) :
    pauseClick s =
      { s with
        isPaused := true
        timers := s.timers.filter (fun t => decide (some t ≠ s.intervalId))
        pauseText := "resume"
        plusDisabled := true, minusDisabled := true, heartDisabled := true
        inputDisabled := true, submitDisabled := true } := by
  simp [pauseClick, hp, toggleButtons, clearInterval_eq]

theorem pauseClick_paused (s : State) (hp : s.isPaused = true) :
    pauseClick s =
      { s with
        isPaused := false
        intervalId := some s.nextHandle
        timers := s.timers ++ [s.nextHandle]
        nextHandle := s.nextHandle + 1
        pauseText := "pause"
        plusDisabled := false, minusDisabled := false, heartDisabled := false
        inputDisabled := false, submitDisabled := false } := by
  simp [pauseClick, hp, toggleButtons, startCounter, setInterval]

theorem timerInv_pauseClick (s : State) (h : TimerInv s) : TimerInv (pauseClick s) := by
  obtain ⟨h1, h2⟩ := h
  cases hp : s.isPaused with
  | false =>
    obtain ⟨t, ht, htm⟩ := h1 hp
    rw [pauseClick_running s hp]
    constructor
    · intro hq; simp at hq
    · intro _; simp [ht, htm]
  | true =>
    have htm := h2 hp
    rw [pauseClick_paused s hp]
    constructor
    · intro _; exact ⟨s.nextHandle, rfl, by simp [htm]⟩
    · intro hq; simp at hq

theorem timerInv_step (s : State) (e : Event) (s' : State) (h : TimerInv s)
    (hs : step s e = some s') : TimerInv s' := by
  cases e with
  | tick =>
    simp only [step] at hs
    split_ifs at hs
    simp only [Option.some.injEq] at hs
    subst hs
    unfold timerCallback
    split_ifs
    · exact h
    · exact h
  | plus => simp only [step, Option.some.injEq] at hs; subst hs; exact h
  | minus => simp only [step, Option.some.injEq] at hs; subst hs; exact h
  | heart =>
    simp only [step, Option.some.injEq] at hs
    subst hs
    obtain ⟨-, f2, f3, f4, -⟩ := heartClick_frame s
    unfold TimerInv
    rw [f2, f3, f4]
    exact h
  | pause =>
    simp only [step, Option.some.injEq] at hs
    subst hs
    exact timerInv_pauseClick s h
  | typeInput t => simp only [step, Option.some.injEq] at hs; subst hs; exact h
  | submit =>
    simp only [step, Option.some.injEq] at hs
    subst hs
    unfold submitHandler
    simp only
    split_ifs
    · exact h
    · exact h

theorem reachable_timerInv (s : State) (h : Reachable s) : TimerInv s :=
  reachable_induction TimerInv timerInv_init timerInv_step s h

/-! ## Comment submission -/

theorem dropWhile_all_iff (p : Char → Bool) (l : List Char) :
    (∀ x ∈ l.dropWhile p, p x = true) ↔ ∀ x ∈ l, p x = true := by
  induction l with
  | nil => simp
  | cons a l ih =>
    by_cases ha : p a = true
    · simp [List.dropWhile_cons, ha, ih]
    · simp only [List.dropWhile_cons, ha, Bool.false_eq_true, if_false]

theorem trim_eq_empty_iff (t : String) :
    trim t = "" ↔ ∀ c ∈ t.data, isWhiteSpace c = true := by
  unfold trim
  rw [← dropWhile_all_iff isWhiteSpace t.data, ← List.rdropWhile_eq_nil_iff]
  constructor
  · intro h; exact congrArg String.data h
  · intro h; rw [h]

/-! ## Manual increment and decrement -/

theorem exec_counterClicks (evs : List Event) : ∀ s : State,
    (∀ e ∈ evs, IsCounterClick e) →
    ∃ s', exec s evs = some s' ∧
      s'.counter = s.counter + (evs.count Event.plus : Int) - (evs.count Event.minus : Int) ∧
      (evs ≠ [] → s'.counterText = toString s'.counter) ∧
      (evs = [] → s' = s) := by
  induction evs with
  | nil => intro s _; exact ⟨s, rfl, by simp, by simp, fun _ => rfl⟩
  | cons e es ih =>
    intro s hall
    have he : IsCounterClick e := hall e (List.mem_cons_self _ _)
    have hes : ∀ x ∈ es, IsCounterClick x := fun x hx => hall x (List.mem_cons_of_mem _ hx)
    rcases he with rfl | rfl
    · obtain ⟨s', h1, h2, h3, h4⟩ := ih (plusClick s) hes
      refine ⟨s', by simpa [exec, step] using h1, ?_, ?_, by simp⟩
      · rw [h2]
        simp only [plusClick, updateCounterDisplay, List.count_cons_self, List.count_cons_of_ne,
          ne_eq, reduceCtorEq, not_false_eq_true, Nat.cast_add, Nat.cast_one]
        ring
      · intro _
        by_cases hnil : es = []
        · rw [h4 hnil]; rfl
        · exact h3 hnil
    · obtain ⟨s', h1, h2, h3, h4⟩ := ih (minusClick s) hes
      refine ⟨s', by simpa [exec, step] using h1, ?_, ?_, by simp⟩
      · rw [h2]
        simp only [minusClick, updateCounterDisplay, List.count_cons_self, List.count_cons_of_ne,
          ne_eq, reduceCtorEq, not_false_eq_true, Nat.cast_add, Nat.cast_one]
        ring
      · intro _
        by_cases hnil : es = []
        · rw [h4 hnil]; rfl
        · exact h3 hnil

/-! ## Likes -/

theorem mem_firstSeen (l : List Int) (v : Int) : v ∈ firstSeen l ↔ v ∈ l := by
  induction l with
  | nil => simp [firstSeen]
  | cons a l ih =>
    simp only [firstSeen, List.mem_cons, List.mem_filter, ih, decide_eq_true_eq]
    by_cases h : v = a <;> simp [h]

theorem nodup_firstSeen (l : List Int) : (firstSeen l).Nodup := by
  induction l with
  | nil => simp [firstSeen]
  | cons a l ih =>
    simp only [firstSeen, List.nodup_cons, List.mem_filter, decide_eq_true_eq, ne_eq,
      not_true_eq_false, and_false, not_false_eq_true, true_and]
    exact ih.filter _

theorem firstSeen_snoc (l : List Int) (v : Int) :
    firstSeen (l ++ [v]) = if v ∈ l then firstSeen l else firstSeen l ++ [v] := by
  induction l with
  | nil => simp [firstSeen]
  | cons a l ih =>
    show firstSeen (a :: (l ++ [v])) = _
    rw [firstSeen, ih]
    by_cases hva : v = a
    · subst hva
      by_cases hvl : v ∈ l <;> simp [hvl, List.filter_append, firstSeen]
    · by_cases hvl : v ∈ l <;> simp [hvl, hva, List.filter_append, firstSeen]

theorem count_firstSeen (l : List Int) (v : Int) :
    (firstSeen l).count v = if v ∈ l then 1 else 0 := by
  by_cases h : v ∈ l
  · simp only [h, if_true]
    exact List.count_eq_one_of_mem (nodup_firstSeen l) ((mem_firstSeen l v).2 h)
  · simp only [h, if_false]
    exact List.count_eq_zero_of_not_mem (fun hm => h ((mem_firstSeen l v).1 hm))

theorem setTextById_frame (id text : String) : ∀ (l l' : List LikeItem),
    setTextById id text l = some l' →
    l'.length = l.length ∧
    l'.filter (fun x => decide (x.id ≠ id)) = l.filter (fun x => decide (x.id ≠ id)) := by
  intro l
  induction l with
  | nil => intro l' h; simp [setTextById] at h
  | cons x xs ih =>
    intro l' h
    simp only [setTextById] at h
    split_ifs at h with hx
    · simp only [Option.some.injEq] at h
      subst h
      simp [hx]
    · cases hr : setTextById id text xs with
      | none => simp [hr] at h
      | some r =>
        simp only [hr, Option.map_some', Option.some.injEq] at h
        subst h
        obtain ⟨h1, h2⟩ := ih r hr
        refine ⟨by simp [h1], ?_⟩
        rw [List.filter_cons, List.filter_cons, h2]

theorem setTextById_unique (id text : String) : ∀ l : List LikeItem,
    l.countP (fun x => decide (x.id = id)) = 1 →
    setTextById id text l =
      some (l.map (fun x => if x.id = id then ⟨x.id, text⟩ else x)) := by
  intro l
  induction l with
  | nil => intro h; simp at h
  | cons x xs ih =>
    intro h
    simp only [setTextById]
    by_cases hx : x.id = id
    · simp only [hx, if_true, List.map_cons, Option.some.injEq, List.cons.injEq, true_and]
      have h0 : xs.countP (fun x => decide (x.id = id)) = 0 := by
        simpa [List.countP_cons, hx] using h
      rw [List.countP_eq_zero] at h0
      symm
      calc xs.map (fun x => if x.id = id then (⟨x.id, text⟩ : LikeItem) else x)
          = xs.map (fun x => x) := by
            apply List.map_congr_left
            intro y hy
            have := h0 y hy
            simp only [decide_eq_true_eq] at this
            simp [this]
        _ = xs := List.map_id' xs
    · have h1 : xs.countP (fun x => decide (x.id = id)) = 1 := by
        simpa [List.countP_cons, hx] using h
      simp [hx, ih h1]

theorem countP_likeItem (H : List Int) (v : Int) (vs : List Int) :
    (vs.map (likeItem H)).countP (fun x => decide (x.id = likeId v)) = vs.count v := by
  induction vs with
  | nil => simp
  | cons a vs ih =>
    by_cases h : a = v
    · subst h; simp [List.countP_cons, ih, likeItem]
    · have h2 : likeId a ≠ likeId v := fun hc => h (likeId_injective hc)
      rw [List.count_cons_of_ne (Ne.symm h), ← ih]
      simp [List.countP_cons, likeItem, h2]

theorem heartClick_fresh (s : State) (h : truthy (s.likes s.counter) = false) :
    heartClick s = .ok { s with
      likes := fun k => if k = s.counter then some 1 else s.likes k
      likesList := s.likesList ++
        [⟨likeId s.counter, toString s.counter ++ " has been liked 1 time"⟩] } := by
  simp [heartClick, h]

theorem heartClick_again (s : State) (n : Nat) (h : s.likes s.counter = some n)
    (hn : n ≠ 0)
    (hc : s.likesList.countP (fun x => decide (x.id = likeId s.counter)) = 1) :
    heartClick s = .ok { s with
      likes := fun k => if k = s.counter then some (n + 1) else s.likes k
      likesList := s.likesList.map (fun x =>
        if x.id = likeId s.counter then
          ⟨x.id, toString s.counter ++ " has been liked " ++ toString (n + 1) ++ " times"⟩
        else x) } := by
  have ht : truthy (s.likes s.counter) = true := by simp [h, truthy, hn]
  have ht2 : truthy (some n) = true := by rw [← h]; exact ht
  simp only [heartClick, h, Option.getD_some]
  rw [setTextById_unique _ _ _ hc]
  simp only [ht2, if_true]

theorem likeText_succ_succ (v : Int) (n : Nat) :
    likeText v (n + 2) = toString v ++ " has been liked " ++ toString (n + 2) ++ " times" := by
  simp [likeText]

theorem likesInv_heartClick (s : State) (H : List Int) (hinv : LikesInv s H) :
    ∃ s', heartClick s = .ok s' ∧ LikesInv s' (H ++ [s.counter]) := by
  obtain ⟨hl, hlist⟩ := hinv
  by_cases hv : H.count s.counter = 0
  · have hlv : s.likes s.counter = none := by rw [hl]; simp [hv]
    have hmem : s.counter ∉ H := List.count_eq_zero.1 hv
    refine ⟨_, heartClick_fresh s (by simp [hlv, truthy]), ?_, ?_⟩
    · intro w
      by_cases hw : w = s.counter
      · subst hw; simp [hv]
      · simp only [hw, if_false, hl w, List.count_append]
        simp [List.count_cons_of_ne hw]
    · simp only [firstSeen_snoc, hmem, if_false, List.map_append, List.map_cons, List.map_nil]
      rw [hlist]
      congr 1
      · apply List.map_congr_left
        intro w hw
        have hne : w ≠ s.counter := by
          intro hc; rw [hc] at hw; exact hmem ((mem_firstSeen H _).1 hw)
        simp [likeItem, List.count_append, List.count_cons_of_ne hne]
      · simp [likeItem, List.count_append, hv, likeText]
  · obtain ⟨n, hn⟩ : ∃ n, H.count s.counter = n + 1 := Nat.exists_eq_succ_of_ne_zero hv
    have hlv : s.likes s.counter = some (n + 1) := by rw [hl]; simp [hn]
    have hmem : s.counter ∈ H := by
      by_contra hc; exact hv (List.count_eq_zero.2 hc)
    have hc : s.likesList.countP (fun x => decide (x.id = likeId s.counter)) = 1 := by
      rw [hlist, countP_likeItem, count_firstSeen]; simp [hmem]
    refine ⟨_, heartClick_again s (n + 1) hlv (by omega) hc, ?_, ?_⟩
    · intro w
      by_cases hw : w = s.counter
      · subst hw; simp [hn, List.count_append]
      · simp only [hw, if_false, hl w, List.count_append]
        simp [List.count_cons_of_ne hw]
    · simp only [firstSeen_snoc, hmem, if_true]
      rw [hlist, List.map_map]
      apply List.map_congr_left
      intro w _
      by_cases hw : w = s.counter
      · subst hw
        simp only [Function.comp, likeItem, if_true, List.count_append, hn, List.count_singleton_self]
        rw [likeText_succ_succ]
      · have h2 : likeId w ≠ likeId s.counter := fun hc => hw (likeId_injective hc)
        simp [Function.comp, likeItem, h2, List.count_append, List.count_cons_of_ne hw]

theorem likesInv_step (s : State) (H : List Int) (e : Event) (s' : State)
    (hinv : LikesInv s H) (hs : step s e = some s') :
    LikesInv s' (H ++ if e = Event.heart then [s.counter] else []) := by
  cases e with
  | heart =>
    obtain ⟨r, hr, hri⟩ := likesInv_heartClick s H hinv
    simp only [step, afterHeart, hr, Option.some.injEq] at hs
    subst hs
    simpa using hri
  | tick =>
    simp only [step] at hs
    split_ifs at hs
    simp only [Option.some.injEq] at hs
    subst hs
    simp only [reduceCtorEq, if_false, List.append_nil]
    unfold timerCallback
    split_ifs
    · exact hinv
    · exact hinv
  | plus =>
    simp only [step, Option.some.injEq] at hs; subst hs
    simpa using hinv
  | minus =>
    simp only [step, Option.some.injEq] at hs; subst hs
    simpa using hinv
  | pause =>
    simp only [step, Option.some.injEq] at hs; subst hs
    simp only [reduceCtorEq, if_false, List.append_nil]
    cases hp : s.isPaused with
    | false => rw [pauseClick_running s hp]; exact hinv
    | true => rw [pauseClick_paused s hp]; exact hinv
  | typeInput t =>
    simp only [step, Option.some.injEq] at hs; subst hs
    simpa using hinv
  | submit =>
    simp only [step, Option.some.injEq] at hs; subst hs
    simp only [reduceCtorEq, if_false, List.append_nil]
    unfold submitHandler
    simp only
    split_ifs
    · exact hinv
    · exact hinv

theorem likesInv_exec (evs : List Event) : ∀ (s s' : State) (H : List Int),
    LikesInv s H → exec s evs = some s' → LikesInv s' (H ++ likedValues s evs) := by
  induction evs with
  | nil =>
    intro s s' H hinv h
    simp only [exec, Option.some.injEq] at h
    subst h
    simpa [likedValues] using hinv
  | cons e es ih =>
    intro s s' H hinv h
    simp only [exec] at h
    cases hse : step s e with
    | none => simp [hse] at h
    | some s1 =>
      rw [hse] at h
      have h1 := likesInv_step s H e s1 hinv hse
      have h2 := ih s1 s' _ h1 h
      simpa [likedValues, hse, List.append_assoc] using h2

theorem likesInv_init : LikesInv init [] := by
  constructor
  · intro v; rfl
  · rfl

theorem reachable_likesInv (s : State) (h : Reachable s) : ∃ H, LikesInv s H := by
  obtain ⟨evs, hevs⟩ := h
  exact ⟨_, likesInv_exec evs init s [] likesInv_init hevs⟩

theorem likeText_one (v : Int) : likeText v 1 = toString v ++ " has been liked 1 time" := by
  simp [likeText]

theorem plural_ne_singular (v : Int) (n : Nat) :
    toString v ++ " has been liked " ++ toString n ++ " times" ≠
      toString v ++ " has been liked 1 time" := by
  intro h
  have h1 := congrArg (fun t : String => t.data.getLast?) h
  have e1 : (" times" : String).data = [' ', 't', 'i', 'm', 'e', 's'] := rfl
  have e2 : (" has been liked 1 time" : String).data =
      " has been liked 1 tim".data ++ ['e'] := rfl
  simp only [String.data_append, e1, e2] at h1
  rw [List.getLast?_append_of_ne_nil _ (by simp),
    List.getLast?_append_of_ne_nil _ (by simp)] at h1
  simp at h1

theorem likeText_eq_singular_iff (v : Int) (n : Nat) :
    likeText v n = toString v ++ " has been liked 1 time" ↔ n = 1 := by
  constructor
  · intro h
    by_contra hn
    simp only [likeText, hn, if_false] at h
    exact plural_ne_singular v n h
  · intro h; subst h; exact likeText_one v

theorem afterHeart_likes (s : State) :
    (∀ w, w ≠ s.counter → (afterHeart s).likes w = s.likes w) ∧
    (∀ n, s.likes s.counter = some n → ∃ m, n ≤ m ∧ (afterHeart s).likes s.counter = some m) ∧
    (afterHeart s).likesList.filter (fun x => decide (x.id ≠ likeId s.counter)) =
      s.likesList.filter (fun x => decide (x.id ≠ likeId s.counter)) := by
  unfold afterHeart heartClick
  simp only
  split_ifs with ht
  · cases hset : setTextById (likeId s.counter)
        (toString s.counter ++ " has been liked " ++
          toString ((s.likes s.counter).getD 0 + 1) ++ " times") s.likesList with
    | none =>
      refine ⟨?_, ?_, rfl⟩
      · intro w hw; simp [hw]
      · intro n hn; exact ⟨n + 1, by omega, by simp [hn]⟩
    | some l =>
      refine ⟨?_, ?_, (setTextById_frame _ _ _ _ hset).2⟩
      · intro w hw; simp [hw]
      · intro n hn; exact ⟨n + 1, by omega, by simp [hn]⟩
  · refine ⟨?_, ?_, ?_⟩
    · intro w hw; simp [hw]
    · intro n hn
      have : n = 0 := by
        cases n with
        | zero => rfl
        | succ k => simp [hn, truthy] at ht
      exact ⟨1, by omega, by simp⟩
    · simp [List.filter_append]

theorem step_likes_of_ne_heart (s s' : State) (e : Event) (he : e ≠ Event.heart)
    (hs : step s e = some s') : s'.likes = s.likes ∧ s'.likesList = s.likesList := by
  cases e with
  | heart => exact absurd rfl he
  | tick =>
    simp only [step] at hs
    split_ifs at hs
    simp only [Option.some.injEq] at hs
    subst hs
    unfold timerCallback
    split_ifs
    · exact ⟨rfl, rfl⟩
    · exact ⟨rfl, rfl⟩
  | plus => simp only [step, Option.some.injEq] at hs; subst hs; exact ⟨rfl, rfl⟩
  | minus => simp only [step, Option.some.injEq] at hs; subst hs; exact ⟨rfl, rfl⟩
  | pause =>
    simp only [step, Option.some.injEq] at hs; subst hs
    cases hp : s.isPaused with
    | false => rw [pauseClick_running s hp]; exact ⟨rfl, rfl⟩
    | true => rw [pauseClick_paused s hp]; exact ⟨rfl, rfl⟩
  | typeInput t => simp only [step, Option.some.injEq] at hs; subst hs; exact ⟨rfl, rfl⟩
  | submit =>
    simp only [step, Option.some.injEq] at hs; subst hs
    unfold submitHandler
    simp only
    split_ifs
    · exact ⟨rfl, rfl⟩
    · exact ⟨rfl, rfl⟩

theorem exec_likes_of_no_heart (evs : List Event) : ∀ (s s' : State),
    Event.heart ∉ evs → exec s evs = some s' →
    s'.likes = s.likes ∧ s'.likesList = s.likesList := by
  induction evs with
  | nil =>
    intro s s' _ h
    simp only [exec, Option.some.injEq] at h
    subst h
    exact ⟨rfl, rfl⟩
  | cons e es ih =>
    intro s s' hno h
    simp only [exec] at h
    cases hse : step s e with
    | none => simp [hse] at h
    | some s1 =>
      rw [hse] at h
      have he : e ≠ Event.heart := fun hc => hno (by simp [hc])
      have hes : Event.heart ∉ es := fun hc => hno (List.mem_cons_of_mem _ hc)
      obtain ⟨a1, a2⟩ := step_likes_of_ne_heart s s1 e he hse
      obtain ⟨b1, b2⟩ := ih s1 s' hes h
      exact ⟨b1.trans a1, b2.trans a2⟩

theorem likesInv_facts (s : State) (H : List Int) (hinv : LikesInv s H) :
    (∀ v n, s.likes v = some n → 1 ≤ n) ∧
    (∀ v, v ∈ firstSeen H ↔ s.likes v ≠ none) ∧
    (∀ v, s.likesList.countP (fun x => decide (x.id = likeId v)) =
      if s.likes v = none then 0 else 1) ∧
    s.likesList = (firstSeen H).map
      (fun v => ⟨likeId v, likeText v ((s.likes v).getD 0)⟩) := by
  obtain ⟨hl, hlist⟩ := hinv
  refine ⟨?_, ?_, ?_, ?_⟩
  · intro v n hv
    rw [hl v] at hv
    split_ifs at hv with h0
    simp only [Option.some.injEq] at hv
    omega
  · intro v
    rw [mem_firstSeen, hl v]
    by_cases h0 : H.count v = 0
    · simp [h0, List.count_eq_zero.1 h0]
    · simp only [h0, if_false, ne_eq, reduceCtorEq, not_false_eq_true, iff_true]
      by_contra hc; exact h0 (List.count_eq_zero.2 hc)
  · intro v
    rw [hlist, countP_likeItem, count_firstSeen, hl v]
    by_cases h0 : H.count v = 0
    · simp [h0, List.count_eq_zero.1 h0]
    · have : v ∈ H := by by_contra hc; exact h0 (List.count_eq_zero.2 hc)
      simp [h0, this]
  · rw [hlist]
    apply List.map_congr_left
    intro v hv
    have hm : v ∈ H := (mem_firstSeen H v).1 hv
    have h0 : H.count v ≠ 0 := fun hc => (List.count_eq_zero.1 hc) hm
    simp [likeItem, hl v, h0]

theorem heartClick_of_likesInv (s : State) (H : List Int) (hinv : LikesInv s H) :
    (s.likes s.counter = none →
      ∃ s', heartClick s = .ok s' ∧ LikesInv s' (H ++ [s.counter]) ∧
        s'.counter = s.counter ∧ s'.likes s.counter = some 1 ∧
        s'.likesList = s.likesList ++
          [⟨likeId s.counter, toString s.counter ++ " has been liked 1 time"⟩]) ∧
    (∀ n, s.likes s.counter = some n →
      ∃ s', heartClick s = .ok s' ∧ LikesInv s' (H ++ [s.counter]) ∧
        s'.counter = s.counter ∧ s'.likes s.counter = some (n + 1) ∧
        s.likesList.countP (fun x => decide (x.id = likeId s.counter)) = 1 ∧
        s'.likesList = s.likesList.map (fun x =>
          if x.id = likeId s.counter then
            ⟨x.id, toString s.counter ++ " has been liked " ++ toString (n + 1) ++ " times"⟩
          else x)) := by
  obtain ⟨s', hs', hinv'⟩ := likesInv_heartClick s H hinv
  obtain ⟨hpos, -, hcount, -⟩ := likesInv_facts s H hinv
  constructor
  · intro hnone
    have hf := heartClick_fresh s (by simp [hnone, truthy])
    rw [hf] at hs'
    cases hs'
    exact ⟨_, hf, hinv', rfl, by simp, rfl⟩
  · intro n hn
    have hc : s.likesList.countP (fun x => decide (x.id = likeId s.counter)) = 1 := by
      rw [hcount]; simp [hn]
    have hn0 : n ≠ 0 := by have := hpos _ _ hn; omega
    have hf := heartClick_again s n hn hn0 hc
    rw [hf] at hs'
    cases hs'
    exact ⟨_, hf, hinv', rfl, by simp, hc, rfl⟩

/-! ## Claims on likes -/

/-- C1: with `v` the counter value at the click.  In every state whose tally has no
entry for `v`, the like handler sets `likes[v] = 1` and appends one entry with the text
`<v> has been liked 1 time`.  On every reachable page whose tally has count `n` for `v`,
the handler sets `likes[v] = n + 1`; the likes list has exactly one entry for `v`, whose
text becomes `<v> has been liked <n+1> times`, and every other entry and the length of
the list stay.  On a reachable page two likes from no entry give `likes[v] = 2` and the
old list followed by the one entry for `v`, reading `<v> has been liked 2 times`.  The
handler does not throw in any of these cases. -/
theorem heartClick_spec (s : State) :
    (s.likes s.counter = none →
      ∃ s', heartClick s = .ok s' ∧ s'.likes s.counter = some 1 ∧
        s'.likesList = s.likesList ++
          [⟨likeId s.counter, toString s.counter ++ " has been liked 1 time"⟩]) ∧
    (Reachable s → ∀ n, s.likes s.counter = some n →
      ∃ s', heartClick s = .ok s' ∧ s'.likes s.counter = some (n + 1) ∧
        s.likesList.countP (fun x => decide (x.id = likeId s.counter)) = 1 ∧
        s'.likesList = s.likesList.map (fun x =>
          if x.id = likeId s.counter then
            ⟨x.id, toString s.counter ++ " has been liked " ++ toString (n + 1) ++ " times"⟩
          else x) ∧
        s'.likesList.length = s.likesList.length) ∧
    (Reachable s → s.likes s.counter = none →
      ∃ s1 s2, heartClick s = .ok s1 ∧ heartClick s1 = .ok s2 ∧
        s2.likes s.counter = some 2 ∧
        s2.likesList = s.likesList ++
          [⟨likeId s.counter, toString s.counter ++ " has been liked 2 times"⟩] ∧
        s2.likesList.filter (fun x => decide (x.id = likeId s.counter)) =
          [⟨likeId s.counter, toString s.counter ++ " has been liked 2 times"⟩]) := by
  refine ⟨?_, ?_, ?_⟩
  · intro hnone
    exact ⟨_, heartClick_fresh s (by simp [hnone, truthy]), by simp, rfl⟩
  · intro hr n hn
    obtain ⟨H, hinv⟩ := reachable_likesInv s hr
    obtain ⟨s', a, -, -, b, c, d⟩ := (heartClick_of_likesInv s H hinv).2 n hn
    exact ⟨s', a, b, c, d, by rw [d, List.length_map]⟩
  · intro hr hnone
    obtain ⟨H, hinv⟩ := reachable_likesInv s hr
    obtain ⟨s1, a1, inv1, c1, l1, ll1⟩ := (heartClick_of_likesInv s H hinv).1 hnone
    have l1' : s1.likes s1.counter = some 1 := by rw [c1]; exact l1
    obtain ⟨s2, a2, -, -, l2, -, ll2⟩ := (heartClick_of_likesInv s1 _ inv1).2 1 l1'
    have hzero : s.likesList.countP (fun x => decide (x.id = likeId s.counter)) = 0 := by
      rw [(likesInv_facts s H hinv).2.2.1]; simp [hnone]
    rw [List.countP_eq_zero] at hzero
    have hkeep : s.likesList.map (fun x =>
        if x.id = likeId s.counter then
          (⟨x.id, toString s.counter ++ " has been liked " ++ toString (1 + 1) ++ " times"⟩ :
            LikeItem)
        else x) = s.likesList := by
      conv_rhs => rw [← List.map_id' s.likesList]
      apply List.map_congr_left
      intro y hy
      have := hzero y hy
      simp only [decide_eq_true_eq] at this
      simp [this]
    have htxt : toString s.counter ++ " has been liked " ++ toString (1 + 1) ++ " times" =
        toString s.counter ++ " has been liked 2 times" := by
      rw [String.append_assoc, String.append_assoc]
      rfl
    have hlist : s2.likesList = s.likesList ++
        [⟨likeId s.counter, toString s.counter ++ " has been liked 2 times"⟩] := by
      rw [ll2, c1, ll1, List.map_append, hkeep]
      simp [htxt]
    refine ⟨s1, s2, a1, a2, by rw [← c1]; exact l2, hlist, ?_⟩
    rw [hlist, List.filter_append]
    have : s.likesList.filter (fun x => decide (x.id = likeId s.counter)) = [] := by
      rw [List.filter_eq_nil_iff]
      exact hzero
    simp [this]

/-- Witness for C1: the first like on the initial page; the page with value 1 liked
once, where the second like rewrites the entry; and two likes in a row on the page after
one tick. -/
theorem heartClick_spec_witness :
    (∃ s', heartClick init = .ok s' ∧ s'.likes 0 = some 1 ∧
      s'.likesList = [⟨"like-0", "0 has been liked 1 time"⟩]) ∧
    (∃ s', heartClick (afterHeart (timerCallback init)) = .ok s' ∧
      s'.likes 1 = some 2 ∧
      (afterHeart (timerCallback init)).likesList.countP
        (fun x => decide (x.id = "like-1")) = 1 ∧
      s'.likesList = (afterHeart (timerCallback init)).likesList.map (fun x =>
          if x.id = "like-1" then ⟨x.id, "1 has been liked 2 times"⟩ else x) ∧
      s'.likesList.length = (afterHeart (timerCallback init)).likesList.length) ∧
    (∃ s1 s2, heartClick (timerCallback init) = .ok s1 ∧ heartClick s1 = .ok s2 ∧
      s2.likes 1 = some 2 ∧
      s2.likesList = [⟨"like-1", "1 has been liked 2 times"⟩] ∧
      s2.likesList.filter (fun x => decide (x.id = "like-1")) =
        [⟨"like-1", "1 has been liked 2 times"⟩]) :=
  ⟨(heartClick_spec init).1 rfl,
   (heartClick_spec (afterHeart (timerCallback init))).2.1
      ⟨[Event.tick, Event.heart], rfl⟩ 1 rfl,
   (heartClick_spec (timerCallback init)).2.2 ⟨[Event.tick], rfl⟩ rfl⟩

/-- C9: after any run from the initial page, with `H` the values liked along the run in
order.  Every tally count is at least 1; `likes[v]` is the number of likes of `v` and is
absent when there is none; the likes list has one entry per tallied value and no other,
in the order in which the values were first liked; the entry of `v` with count `n` has id
`like-<v>` and the text `<v> has been liked 1 time` when `n = 1`, and
`<v> has been liked <n> times` otherwise, and the two texts never coincide.  No event
removes a tally entry or lowers its count. -/
theorem likes_agree (evs : List Event) (s : State) (h : exec init evs = some s) :
    (∀ v n, s.likes v = some n → 1 ≤ n) ∧
    (∀ v, s.likes v =
      if (likedValues init evs).count v = 0 then none
      else some ((likedValues init evs).count v)) ∧
    (firstSeen (likedValues init evs)).Nodup ∧
    (∀ v, v ∈ firstSeen (likedValues init evs) ↔ s.likes v ≠ none) ∧
    s.likesList = (firstSeen (likedValues init evs)).map
      (fun v => ⟨likeId v, likeText v ((s.likes v).getD 0)⟩) ∧
    (∀ v w, likeId v = likeId w → v = w) ∧
    (∀ (v : Int) (n : Nat),
      (likeText v n = toString v ++ " has been liked 1 time" ↔ n = 1) ∧
      (n ≠ 1 → likeText v n = toString v ++ " has been liked " ++ toString n ++ " times")) ∧
    (∀ e s', step s e = some s' →
      ∀ v n, s.likes v = some n → ∃ m, n ≤ m ∧ s'.likes v = some m) := by
  have hinv : LikesInv s ([] ++ likedValues init evs) :=
    likesInv_exec evs init s [] likesInv_init h
  rw [List.nil_append] at hinv
  obtain ⟨f1, f2, -, f4⟩ := likesInv_facts s _ hinv
  refine ⟨f1, hinv.1, nodup_firstSeen _, f2, f4, fun v w hvw => likeId_injective hvw, ?_, ?_⟩
  · intro v n
    exact ⟨likeText_eq_singular_iff v n, fun hn => by simp [likeText, hn]⟩
  · intro e s' hs v n hv
    by_cases he : e = Event.heart
    · subst he
      simp only [step, Option.some.injEq] at hs
      subst hs
      obtain ⟨g1, g2, -⟩ := afterHeart_likes s
      by_cases hvc : v = s.counter
      · subst hvc; exact g2 n hv
      · exact ⟨n, le_refl n, by rw [g1 v hvc]; exact hv⟩
    · obtain ⟨g1, -⟩ := step_likes_of_ne_heart s s' e he hs
      exact ⟨n, le_refl n, by rw [g1]; exact hv⟩

/-- Witness for C9: likes of 1, 2, 1 (a tick and an increment in between): the tally
holds 2 for the value 1 and 1 for the value 2, and the list shows 1 before 2. -/
theorem likes_agree_witness :
    exec init [Event.tick, Event.heart, Event.plus, Event.heart, Event.minus, Event.heart]
      = some (afterHeart (minusClick (afterHeart (plusClick (afterHeart
          (timerCallback init)))))) ∧
    (afterHeart (minusClick (afterHeart (plusClick (afterHeart
      (timerCallback init)))))).likesList =
      [⟨"like-1", "1 has been liked 2 times"⟩, ⟨"like-2", "2 has been liked 1 time"⟩] :=
  ⟨rfl, (likes_agree
    [Event.tick, Event.heart, Event.plus, Event.heart, Event.minus, Event.heart]
    _ rfl).2.2.2.2.1⟩

/-- C10: the like handler, thrown or not, leaves counter, text on display, paused flag,
timers, comment field and comment log as they are, leaves the tally of every value other
than the counter value at the click as it is, and leaves every entry of the likes list
whose id is not that of this value as it is.  Every other event, and so every run without
a like, leaves the whole tally and the whole likes list as they are. -/
theorem like_is_snapshot (s : State) :
    ((afterHeart s).counter = s.counter ∧ (afterHeart s).counterText = s.counterText ∧
      (afterHeart s).isPaused = s.isPaused ∧ (afterHeart s).timers = s.timers ∧
      (afterHeart s).commentInput = s.commentInput ∧
      (afterHeart s).commentDisplay = s.commentDisplay) ∧
    (∀ w, w ≠ s.counter → (afterHeart s).likes w = s.likes w) ∧
    (afterHeart s).likesList.filter (fun x => decide (x.id ≠ likeId s.counter)) =
      s.likesList.filter (fun x => decide (x.id ≠ likeId s.counter)) ∧
    (∀ w, w ≠ s.counter →
      (afterHeart s).likesList.filter (fun x => decide (x.id = likeId w)) =
        s.likesList.filter (fun x => decide (x.id = likeId w))) ∧
    (∀ e s', e ≠ Event.heart → step s e = some s' →
      s'.likes = s.likes ∧ s'.likesList = s.likesList) ∧
    (∀ evs s', Event.heart ∉ evs → exec s evs = some s' →
      s'.likes = s.likes ∧ s'.likesList = s.likesList) := by
  obtain ⟨a1, a2, -, a4, -, a6, -, a8, a9⟩ := heartClick_frame s
  obtain ⟨b1, -, b3⟩ := afterHeart_likes s
  refine ⟨⟨a1, a6, a2, a4, a8, a9⟩, b1, b3, ?_,
    fun e s' he hs => step_likes_of_ne_heart s s' e he hs,
    fun evs s' hno hs => exec_likes_of_no_heart evs s s' hno hs⟩
  intro w hw
  have hne : likeId w ≠ likeId s.counter := fun hc => hw (likeId_injective hc)
  have key : ∀ l : List LikeItem,
      l.filter (fun x => decide (x.id = likeId w)) =
        (l.filter (fun x => decide (x.id ≠ likeId s.counter))).filter
          (fun x => decide (x.id = likeId w)) := by
    intro l
    rw [List.filter_filter]
    apply List.filter_congr
    intro x _
    by_cases hx : x.id = likeId w
    · simp [hx, hne]
    · simp [hx]
  rw [key (afterHeart s).likesList, key s.likesList, b3]

/-- Witness for C10: with the value 1 liked, a tick leaves the tally and the likes list
as the like left them, and the like left the counter as the tick before it left it. -/
theorem like_is_snapshot_witness :
    ((timerCallback (afterHeart (timerCallback init))).likes =
        (afterHeart (timerCallback init)).likes ∧
      (timerCallback (afterHeart (timerCallback init))).likesList =
        (afterHeart (timerCallback init)).likesList) ∧
    (afterHeart (timerCallback init)).counter = (timerCallback init).counter :=
  ⟨(like_is_snapshot (afterHeart (timerCallback init))).2.2.2.2.1 Event.tick _
      (by decide) rfl,
   (like_is_snapshot (timerCallback init)).1.1⟩

/-! ## Claims on timers, pausing, counting and comments -/

/-- C2: the submit handler appends `trim s` to the comment log and clears the field when
`trim s` is not empty, and changes nothing when it is empty, which is the case exactly
when the field holds only white space; submitting `Test comment!` makes it the last
entry of the log. -/
theorem submitHandler_spec (s : State) :
    (trim s.commentInput ≠ "" →
      (submitHandler s).commentDisplay = s.commentDisplay ++ [trim s.commentInput] ∧
      (submitHandler s).commentInput = "") ∧
    (trim s.commentInput = "" → submitHandler s = s) ∧
    (trim s.commentInput = "" ↔ ∀ c ∈ s.commentInput.data, isWhiteSpace c = true) ∧
    (s.commentInput = "Test comment!" →
      (submitHandler s).commentDisplay.getLast? = some "Test comment!") := by
  refine ⟨?_, ?_, trim_eq_empty_iff _, ?_⟩
  · intro h
    simp [submitHandler, h]
  · intro h
    simp [submitHandler, h]
  · intro h
    have ht : trim s.commentInput = "Test comment!" := by rw [h]; decide
    simp [submitHandler, ht]

/-- Witness for C2 on the initial page with ` hello ` typed into the field, then with
blanks only, then with the text of the manual test. -/
theorem submitHandler_spec_witness :
    (submitHandler { init with commentInput := " hello " }).commentDisplay = ["hello"] ∧
    (submitHandler { init with commentInput := " hello " }).commentInput = "" ∧
    (submitHandler { init with commentInput := "   " }).commentInput = "   " ∧
    (submitHandler { init with commentInput := "   " }).commentDisplay = [] ∧
    (submitHandler { init with commentInput := "Test comment!" }).commentDisplay.getLast? =
      some "Test comment!" :=
  ⟨((submitHandler_spec { init with commentInput := " hello " }).1 (by decide)).1,
   ((submitHandler_spec { init with commentInput := " hello " }).1 (by decide)).2,
   congrArg State.commentInput
     ((submitHandler_spec { init with commentInput := "   " }).2.1 (by decide)),
   congrArg State.commentDisplay
     ((submitHandler_spec { init with commentInput := "   " }).2.1 (by decide)),
   (submitHandler_spec { init with commentInput := "Test comment!" }).2.2.2 rfl⟩

/-- C3: the toggle flips `isPaused`.  From a running state it cancels the timer stored in
`intervalId` (on a reachable state no timer stays active), labels the toggle `resume`
and disables the five controls; from a paused state it registers a new timer and keeps
its handle (on a reachable state it is the only active one), labels the toggle `pause`
and enables the five controls.  Counter, tally, likes list and comment log stay as they
are. -/
theorem pauseClick_spec (s : State) :
    (s.isPaused = false →
      (pauseClick s).isPaused = true ∧
      (pauseClick s).timers = s.timers.filter (fun t => decide (some t ≠ s.intervalId)) ∧
      (∀ t, s.intervalId = some t → t ∉ (pauseClick s).timers) ∧
      (Reachable s → (pauseClick s).timers = []) ∧
      (pauseClick s).pauseText = "resume" ∧
      (pauseClick s).plusDisabled = true ∧ (pauseClick s).minusDisabled = true ∧
      (pauseClick s).heartDisabled = true ∧ (pauseClick s).inputDisabled = true ∧
      (pauseClick s).submitDisabled = true) ∧
    (s.isPaused = true →
      (pauseClick s).isPaused = false ∧
      (pauseClick s).timers = s.timers ++ [s.nextHandle] ∧
      (pauseClick s).intervalId = some s.nextHandle ∧
      (Reachable s → (pauseClick s).timers = [s.nextHandle]) ∧
      (pauseClick s).pauseText = "pause" ∧
      (pauseClick s).plusDisabled = false ∧ (pauseClick s).minusDisabled = false ∧
      (pauseClick s).heartDisabled = false ∧ (pauseClick s).inputDisabled = false ∧
      (pauseClick s).submitDisabled = false) ∧
    (pauseClick s).counter = s.counter ∧ (pauseClick s).counterText = s.counterText ∧
    (pauseClick s).likes = s.likes ∧ (pauseClick s).likesList = s.likesList ∧
    (pauseClick s).commentDisplay = s.commentDisplay := by
  refine ⟨?_, ?_, ?_⟩
  · intro hp
    rw [pauseClick_running s hp]
    refine ⟨rfl, rfl, ?_, ?_, rfl, rfl, rfl, rfl, rfl, rfl⟩
    · intro t ht
      simp [ht]
    · intro hr
      obtain ⟨t, ht, htm⟩ := (reachable_timerInv s hr).1 hp
      simp [ht, htm]
  · intro hp
    rw [pauseClick_paused s hp]
    refine ⟨rfl, rfl, rfl, ?_, rfl, rfl, rfl, rfl, rfl, rfl⟩
    intro hr
    simp [(reachable_timerInv s hr).2 hp]
  · cases hp : s.isPaused with
    | false => rw [pauseClick_running s hp]; exact ⟨rfl, rfl, rfl, rfl, rfl⟩
    | true => rw [pauseClick_paused s hp]; exact ⟨rfl, rfl, rfl, rfl, rfl⟩

/-- Witness for C3: pausing the initial page, and resuming the paused page. -/
theorem pauseClick_spec_witness :
    ((pauseClick init).isPaused = true ∧ (pauseClick init).timers = [] ∧
      (pauseClick init).pauseText = "resume" ∧ (pauseClick init).submitDisabled = true) ∧
    ((pauseClick (pauseClick init)).isPaused = false ∧
      (pauseClick (pauseClick init)).timers = [(pauseClick init).nextHandle] ∧
      (pauseClick (pauseClick init)).pauseText = "pause" ∧
      (pauseClick (pauseClick init)).submitDisabled = false) :=
  ⟨⟨((pauseClick_spec init).1 rfl).1,
    ((pauseClick_spec init).1 rfl).2.2.2.1 ⟨[], rfl⟩,
    ((pauseClick_spec init).1 rfl).2.2.2.2.1,
    ((pauseClick_spec init).1 rfl).2.2.2.2.2.2.2.2.2⟩,
   ⟨((pauseClick_spec (pauseClick init)).2.1 rfl).1,
    ((pauseClick_spec (pauseClick init)).2.1 rfl).2.2.2.1 ⟨[Event.pause], rfl⟩,
    ((pauseClick_spec (pauseClick init)).2.1 rfl).2.2.2.2.1,
    ((pauseClick_spec (pauseClick init)).2.1 rfl).2.2.2.2.2.2.2.2.2⟩⟩

/-- C4, as stated, fails on a paused page: the page reached by one click on the toggle
is paused; two more clicks leave it paused again, with the five controls disabled and no
timer active, so no tick can follow. -/
theorem toggle_twice_paused_counterexample :
    Reachable (pauseClick init) ∧
    (pauseClick init).isPaused = true ∧
    (pauseClick (pauseClick (pauseClick init))).isPaused = true ∧
    (pauseClick (pauseClick (pauseClick init))).plusDisabled = true ∧
    (pauseClick (pauseClick (pauseClick init))).minusDisabled = true ∧
    (pauseClick (pauseClick (pauseClick init))).heartDisabled = true ∧
    (pauseClick (pauseClick (pauseClick init))).inputDisabled = true ∧
    (pauseClick (pauseClick (pauseClick init))).submitDisabled = true ∧
    (pauseClick (pauseClick (pauseClick init))).timers = [] ∧
    step (pauseClick (pauseClick (pauseClick init))) Event.tick = none :=
  ⟨⟨[Event.pause], rfl⟩, rfl, rfl, rfl, rfl, rfl, rfl, rfl, rfl, rfl⟩

/-- C4, amended: two clicks on the toggle return `isPaused` to its value and leave the
counter as it was.  From a running state they leave the five controls enabled and a
timer active, whose tick takes the counter to its old value plus one (on a reachable
state that timer is the only one).  From a paused state they leave the five controls
disabled, and on a reachable state no timer active. -/
theorem toggle_twice (s : State) :
    (pauseClick (pauseClick s)).isPaused = s.isPaused ∧
    (pauseClick (pauseClick s)).counter = s.counter ∧
    (s.isPaused = false →
      (pauseClick (pauseClick s)).plusDisabled = false ∧
      (pauseClick (pauseClick s)).minusDisabled = false ∧
      (pauseClick (pauseClick s)).heartDisabled = false ∧
      (pauseClick (pauseClick s)).inputDisabled = false ∧
      (pauseClick (pauseClick s)).submitDisabled = false ∧
      s.nextHandle ∈ (pauseClick (pauseClick s)).timers ∧
      (Reachable s → (pauseClick (pauseClick s)).timers = [s.nextHandle]) ∧
      (step (pauseClick (pauseClick s)) Event.tick).map (fun r => r.counter) =
        some (s.counter + 1)) ∧
    (s.isPaused = true →
      (pauseClick (pauseClick s)).plusDisabled = true ∧
      (pauseClick (pauseClick s)).minusDisabled = true ∧
      (pauseClick (pauseClick s)).heartDisabled = true ∧
      (pauseClick (pauseClick s)).inputDisabled = true ∧
      (pauseClick (pauseClick s)).submitDisabled = true ∧
      (Reachable s → (pauseClick (pauseClick s)).timers = [])) := by
  cases hp : s.isPaused with
  | false =>
    have h1 : (pauseClick s).isPaused = true := by rw [pauseClick_running s hp]
    rw [pauseClick_paused _ h1, pauseClick_running s hp]
    refine ⟨rfl, rfl, ?_, ?_⟩
    · intro _
      refine ⟨rfl, rfl, rfl, rfl, rfl, by simp, ?_, ?_⟩
      · intro hr
        obtain ⟨t, ht, htm⟩ := (reachable_timerInv s hr).1 hp
        simp [ht, htm]
      · simp [step, timerCallback, updateCounterDisplay]
    · intro h; exact absurd h (by decide)
  | true =>
    have h1 : (pauseClick s).isPaused = false := by rw [pauseClick_paused s hp]
    rw [pauseClick_running _ h1, pauseClick_paused s hp]
    refine ⟨rfl, rfl, ?_, ?_⟩
    · intro h; exact absurd h (by decide)
    · intro _
      refine ⟨rfl, rfl, rfl, rfl, rfl, ?_⟩
      intro hr
      simp [(reachable_timerInv s hr).2 hp]

/-- Witness for amended C4 on the initial page, which is running. -/
theorem toggle_twice_witness :
    (pauseClick (pauseClick init)).isPaused = false ∧
    (pauseClick (pauseClick init)).counter = 0 ∧
    (pauseClick (pauseClick init)).plusDisabled = false ∧
    (pauseClick (pauseClick init)).timers = [init.nextHandle] ∧
    (step (pauseClick (pauseClick init)) Event.tick).map (fun r => r.counter) = some 1 :=
  ⟨(toggle_twice init).1, (toggle_twice init).2.1,
   ((toggle_twice init).2.2.1 rfl).1,
   ((toggle_twice init).2.2.1 rfl).2.2.2.2.2.2.1 ⟨[], rfl⟩,
   ((toggle_twice init).2.2.1 rfl).2.2.2.2.2.2.2⟩

/-- C5: on every reachable page exactly one timer is active while running, the one whose
handle `intervalId` holds, and none while paused; any number of further clicks on the
toggle leaves at most one timer active. -/
theorem timers_match_paused (s : State) (h : Reachable s) :
    (s.isPaused = false → s.timers.length = 1 ∧ ∃ t, s.intervalId = some t ∧ s.timers = [t]) ∧
    (s.isPaused = true → s.timers.length = 0) ∧
    ∀ n : Nat, ((pauseClick^[n]) s).timers.length ≤ 1 := by
  have key : ∀ r : State, TimerInv r → r.timers.length ≤ 1 := by
    intro r hr
    cases hp : r.isPaused with
    | false => obtain ⟨t, -, htm⟩ := hr.1 hp; simp [htm]
    | true => simp [hr.2 hp]
  have hinv := reachable_timerInv s h
  refine ⟨?_, ?_, ?_⟩
  · intro hp
    obtain ⟨t, ht, htm⟩ := hinv.1 hp
    exact ⟨by simp [htm], t, ht, htm⟩
  · intro hp
    simp [hinv.2 hp]
  · intro n
    apply key
    induction n with
    | zero => exact hinv
    | succ n ih =>
      rw [Function.iterate_succ_apply']
      exact timerInv_pauseClick _ ih

/-- Witness for C5 on the page reached by tick, like, pause, resume, pause. -/
theorem timers_match_paused_witness :
    Reachable (pauseClick (pauseClick (pauseClick (afterHeart (timerCallback init))))) ∧
    (pauseClick (pauseClick (pauseClick (afterHeart (timerCallback init))))).timers.length
      = 0 :=
  ⟨⟨[Event.tick, Event.heart, Event.pause, Event.pause, Event.pause], rfl⟩,
   (timers_match_paused _
     ⟨[Event.tick, Event.heart, Event.pause, Event.pause, Event.pause], rfl⟩).2.1 rfl⟩

/-- C6: a sequence of clicks on `plusBtn` and `minusBtn` takes the counter, and the text
on display, to the starting value plus the number of increments minus the number of
decrements, which may be negative; any other sequence with the same two numbers ends on
the same value.  One increment adds exactly one, and a decrement after it restores the
value.  (The text is written by the clicks: with no click at all it is the text that was
on display.) -/
theorem counter_clicks (s : State) (evs : List Event)
    (hevs : ∀ e ∈ evs, IsCounterClick e)
    (hshown : s.counterText = toString s.counter ∨ evs ≠ []) :
    (∃ s', exec s evs = some s' ∧
      s'.counter = s.counter + (evs.count Event.plus : Int) - (evs.count Event.minus : Int) ∧
      s'.counterText =
        toString (s.counter + (evs.count Event.plus : Int) - (evs.count Event.minus : Int))) ∧
    (∀ evs2 : List Event, (∀ e ∈ evs2, IsCounterClick e) →
      evs2.count Event.plus = evs.count Event.plus →
      evs2.count Event.minus = evs.count Event.minus →
      (exec s evs2).map (fun r => r.counter) = (exec s evs).map (fun r => r.counter)) ∧
    (plusClick s).counter = s.counter + 1 ∧
    (plusClick s).counterText = toString (s.counter + 1) ∧
    (minusClick s).counter = s.counter - 1 ∧
    (minusClick (plusClick s)).counter = s.counter := by
  obtain ⟨s', h1, h2, h3, h4⟩ := exec_counterClicks evs s hevs
  refine ⟨⟨s', h1, h2, ?_⟩, ?_, rfl, rfl, rfl, ?_⟩
  · by_cases hnil : evs = []
    · have hs := h4 hnil
      rcases hshown with hsh | hne
      · subst hnil; rw [hs, hsh]; simp
      · exact absurd hnil hne
    · rw [h3 hnil, h2]
  · intro evs2 hevs2 hc1 hc2
    obtain ⟨s2, g1, g2, -, -⟩ := exec_counterClicks evs2 s hevs2
    rw [g1, h1]
    simp [g2, h2, hc1, hc2]
  · simp [minusClick, plusClick, updateCounterDisplay]

/-- Witness for C6: from the initial page, two decrements and one increment in either
order end on `-1`, shown as `-1`. -/
theorem counter_clicks_witness :
    (∃ s', exec init [Event.minus, Event.plus, Event.minus] = some s' ∧
      s'.counter = -1 ∧ s'.counterText = "-1") ∧
    (exec init [Event.minus, Event.minus, Event.plus]).map (fun r => r.counter) =
      (exec init [Event.minus, Event.plus, Event.minus]).map (fun r => r.counter) :=
  ⟨(counter_clicks init [Event.minus, Event.plus, Event.minus]
      (by decide) (Or.inl rfl)).1,
   (counter_clicks init [Event.minus, Event.plus, Event.minus]
      (by decide) (Or.inl rfl)).2.1 [Event.minus, Event.minus, Event.plus]
      (by decide) (by decide) (by decide)⟩

/-- C7: on a reachable paused page no tick can occur, and the timer callback run on any
paused state changes nothing, so counter and text on display stay; on a running state
the callback adds exactly one to the counter and displays the new value, and on a
reachable running page the tick does occur. -/
theorem tick_spec (s : State) :
    (Reachable s → s.isPaused = true → step s Event.tick = none) ∧
    (s.isPaused = true →
      timerCallback s = s ∧ (timerCallback s).counter = s.counter ∧
      (timerCallback s).counterText = s.counterText) ∧
    (s.isPaused = false →
      (timerCallback s).counter = s.counter + 1 ∧
      (timerCallback s).counterText = toString (s.counter + 1)) ∧
    (Reachable s → s.isPaused = false → step s Event.tick = some (timerCallback s)) := by
  refine ⟨?_, ?_, ?_, ?_⟩
  · intro hr hp
    simp [step, (reachable_timerInv s hr).2 hp]
  · intro hp
    have : timerCallback s = s := by simp [timerCallback, hp]
    rw [this]
    exact ⟨rfl, rfl, rfl⟩
  · intro hp
    simp [timerCallback, hp, updateCounterDisplay]
  · intro hr hp
    obtain ⟨t, -, htm⟩ := (reachable_timerInv s hr).1 hp
    simp [step, htm]

/-- Witness for C7: no tick on the paused page reached by one click on the toggle, and
the first tick of the initial page shows `1`. -/
theorem tick_spec_witness :
    step (pauseClick init) Event.tick = none ∧
    (timerCallback (pauseClick init)).counter = (pauseClick init).counter ∧
    (timerCallback init).counter = 1 ∧ (timerCallback init).counterText = "1" :=
  ⟨(tick_spec (pauseClick init)).1 ⟨[Event.pause], rfl⟩ rfl,
   ((tick_spec (pauseClick init)).2.1 rfl).2.1,
   ((tick_spec init).2.2.1 rfl).1,
   ((tick_spec init).2.2.1 rfl).2⟩

/-- C8: the end-to-end run.  The initial page has value 0, is running, and has an empty
tally and an empty comment log.  One tick gives 1, an increment 2, a decrement 1; the
like gives `likes[1] = 1` and the single entry `1 has been liked 1 time`; the toggle
pauses, disables the five controls and shows `resume`; the toggle again resumes, enables
them and shows `pause`; submitting `Test comment!` gives a log with that one entry. -/
theorem end_to_end :
    (init.counter = 0 ∧ init.isPaused = false ∧ (∀ v, init.likes v = none) ∧
      init.likesList = [] ∧ init.commentDisplay = []) ∧
    (exec init [Event.tick]).map (fun s => (s.counter, s.counterText)) = some (1, "1") ∧
    (exec init [Event.tick, Event.plus]).map (fun s => (s.counter, s.counterText))
      = some (2, "2") ∧
    (exec init [Event.tick, Event.plus, Event.minus]).map
      (fun s => (s.counter, s.counterText)) = some (1, "1") ∧
    (exec init [Event.tick, Event.plus, Event.minus, Event.heart]).map
      (fun s => (s.likes 1, s.likesList))
      = some (some 1, [⟨"like-1", "1 has been liked 1 time"⟩]) ∧
    (exec init [Event.tick, Event.plus, Event.minus, Event.heart, Event.pause]).map
      (fun s => (s.isPaused, s.pauseText, s.plusDisabled, s.minusDisabled, s.heartDisabled,
        s.inputDisabled, s.submitDisabled, s.timers.length))
      = some (true, "resume", true, true, true, true, true, 0) ∧
    (exec init [Event.tick, Event.plus, Event.minus, Event.heart, Event.pause,
        Event.pause]).map
      (fun s => (s.isPaused, s.pauseText, s.plusDisabled, s.minusDisabled, s.heartDisabled,
        s.inputDisabled, s.submitDisabled, s.timers.length))
      = some (false, "pause", false, false, false, false, false, 1) ∧
    (exec init [Event.tick, Event.plus, Event.minus, Event.heart, Event.pause,
        Event.pause, Event.typeInput "Test comment!", Event.submit]).map
      (fun s => (s.commentDisplay, s.commentInput, s.counter, s.likes 1))
      = some (["Test comment!"], "", 1, some 1) := by
  refine ⟨⟨rfl, rfl, fun _ => rfl, rfl, rfl⟩, ?_, ?_, ?_, ?_, ?_, ?_, ?_⟩ <;> rfl

end Challenge
